import Mathlib

/-!
Verification of the server-side engine of the Custom-VPN-Server repository
(`src/index.js`, the `VPNServer` half of the file).

Bytes are modelled as `Nat` (values below 256 where it matters), byte strings
as `List Nat`.  The server's `encrypt`/`decrypt` (`aes-256-cbc` via Node's
`crypto` module) are modelled as CBC mode with PKCS#7 padding over an
abstract 16-byte block cipher: the AES core itself is a parameter
(`BlockCipher`), the mode, padding and failure behaviour are translated from
the code.  Node's `decipher.update`/`final` throws (and the server's
`decrypt` catches and returns `null`, modelled as `none`) exactly when the
ciphertext is empty, is not a multiple of the block size, or fails the
PKCS#7 padding check.
-/

/-- An abstract 16-byte block cipher core (AES-256 under the fixed process
key in the source); `enc`/`dec` are the forward and inverse permutations. -/
structure BlockCipher where
  enc : List Nat → List Nat
  dec : List Nat → List Nat

/-- A block cipher is good when, on 16-byte blocks, `enc` produces 16-byte
blocks and `dec` inverts it.  AES has this property for every key. -/
def GoodCipher (bc : BlockCipher) : Prop :=
  ∀ b : List Nat, b.length = 16 → (bc.enc b).length = 16 ∧ bc.dec (bc.enc b) = b

/-- Bytewise xor of two equal-length byte strings. -/
def xorBytes (a b : List Nat) : List Nat :=
  List.zipWith Nat.xor a b

/-- Split a byte string into consecutive 16-byte blocks (the last block may
be shorter when the length is not a multiple of 16). -/
def chunks16 (l : List Nat) : List (List Nat) :=
  if h : l = [] then []
  else l.take 16 :: chunks16 (l.drop 16)
termination_by l.length
decreasing_by
  simp only [List.length_drop]
  exact Nat.sub_lt (List.length_pos.mpr h) (by decide)

/-- CBC encryption of a list of blocks with chained previous ciphertext
block `prev` (initially the IV). -/
def cbcEncAux (bc : BlockCipher) (prev : List Nat) : List (List Nat) → List (List Nat)
  | [] => []
  | b :: bs =>
    let c := bc.enc (xorBytes b prev)
    c :: cbcEncAux bc c bs

/-- CBC decryption of a list of ciphertext blocks with chained previous
ciphertext block `prev` (initially the IV). -/
def cbcDecAux (bc : BlockCipher) (prev : List Nat) : List (List Nat) → List (List Nat)
  | [] => []
  | c :: cs => xorBytes (bc.dec c) prev :: cbcDecAux bc c cs

/-- PKCS#7 padding to a positive multiple of 16 bytes: append `p` copies of
the byte `p`, where `p = 16 - len % 16` (so `1 ≤ p ≤ 16`). -/
def pkcs7Pad (d : List Nat) : List Nat :=
  let padLen := 16 - d.length % 16
  d ++ List.replicate padLen padLen

/-- PKCS#7 unpadding; `none` when the padding check fails (this is the case
in which Node's `decipher.final()` throws `bad decrypt`). -/
def pkcs7Unpad (d : List Nat) : Option (List Nat) :=
  match d.getLast? with
  | none => none
  | some p =>
    if 1 ≤ p ∧ p ≤ 16 ∧ d.drop (d.length - p) = List.replicate p p then
      some (d.take (d.length - p))
    else none

/-- `VPNServer.prototype.encrypt` (src/index.js lines 290-294):
`crypto.createCipheriv('aes-256-cbc', KEY, IV)` then `update`+`final`,
i.e. PKCS#7-pad and CBC-encrypt under the process-wide key and IV. -/
def VPNServer.encrypt (bc : BlockCipher) (iv : List Nat) (data : List Nat) : List Nat :=
  (cbcEncAux bc iv (chunks16 (pkcs7Pad data))).flatten

/-- `VPNServer.prototype.decrypt` (src/index.js lines 297-306): CBC-decrypt
and unpad inside a `try`; any failure (`wrong final block length` for empty
or non-block-multiple input, `bad decrypt` for a padding failure) is caught
and `null` (here `none`) is returned. -/
def VPNServer.decrypt (bc : BlockCipher) (iv : List Nat) (ct : List Nat) : Option (List Nat) :=
  if ct.length % 16 = 0 ∧ ct.length ≠ 0 then
    pkcs7Unpad ((cbcDecAux bc iv (chunks16 ct)).flatten)
  else none

/-- The identity block cipher, used as a concrete `GoodCipher` instance in
witnesses. -/
def idCipher : BlockCipher :=
  { enc := fun b => b, dec := fun b => b }

/-- A concrete 16-byte IV for witnesses. -/
def iv16 : List Nat := List.replicate 16 0

-- Basic lemmas about the pieces.

theorem xorBytes_length (a b : List Nat) : (xorBytes a b).length = min a.length b.length := by
  simp [xorBytes]

theorem xorBytes_xorBytes (a b : List Nat) (h : a.length ≤ b.length) :
    xorBytes (xorBytes a b) b = a := by
  induction a generalizing b with
  | nil => simp [xorBytes]
  | cons x xs ih =>
    cases b with
    | nil => simp at h
    | cons y ys =>
      simp only [xorBytes, List.zipWith_cons_cons] at *
      refine congrArg₂ _ ?_ (ih ys (Nat.le_of_succ_le_succ h))
      exact Nat.xor_cancel_right y x

theorem chunks16_nil : chunks16 [] = [] := by
  rw [chunks16]
  simp

theorem chunks16_cons (l : List Nat) (h : l ≠ []) :
    chunks16 l = l.take 16 :: chunks16 (l.drop 16) := by
  rw [chunks16]
  simp [h]

theorem join_chunks16_aux (n : Nat) :
    ∀ l : List Nat, l.length ≤ n → (chunks16 l).flatten = l := by
  induction n with
  | zero =>
    intro l h
    have : l = [] := List.eq_nil_of_length_eq_zero (Nat.le_zero.mp h)
    subst this; simp [chunks16_nil]
  | succ n ih =>
    intro l h
    by_cases hnil : l = []
    · subst hnil; simp [chunks16_nil]
    · rw [chunks16_cons l hnil]
      simp only [List.flatten_cons]
      rw [ih (l.drop 16) ?_]
      · exact List.take_append_drop 16 l
      · have hpos : 0 < l.length := List.length_pos.mpr hnil
        simp only [List.length_drop]
        omega

theorem join_chunks16 (l : List Nat) : (chunks16 l).flatten = l :=
  join_chunks16_aux l.length l (Nat.le_refl _)

theorem chunks16_length_mem_aux (n : Nat) :
    ∀ l : List Nat, l.length ≤ n → l.length % 16 = 0 →
      ∀ b ∈ chunks16 l, b.length = 16 := by
  induction n with
  | zero =>
    intro l h _
    have : l = [] := List.eq_nil_of_length_eq_zero (Nat.le_zero.mp h)
    subst this; simp [chunks16_nil]
  | succ n ih =>
    intro l h hdvd
    by_cases hnil : l = []
    · subst hnil; simp [chunks16_nil]
    · rw [chunks16_cons l hnil]
      intro b hb
      have hpos : 0 < l.length := List.length_pos.mpr hnil
      have h16 : 16 ≤ l.length := by
        rcases Nat.lt_or_ge l.length 16 with hlt | hge
        · exfalso
          have := Nat.mod_eq_of_lt hlt
          omega
        · exact hge
      rcases List.mem_cons.mp hb with hb | hb
      · subst hb
        simp [List.length_take, Nat.min_eq_left h16]
      · refine ih (l.drop 16) ?_ ?_ b hb
        · simp only [List.length_drop]; omega
        · simp only [List.length_drop]; omega

theorem chunks16_length_mem (l : List Nat) (hdvd : l.length % 16 = 0) :
    ∀ b ∈ chunks16 l, b.length = 16 :=
  chunks16_length_mem_aux l.length l (Nat.le_refl _) hdvd

theorem cbcEncAux_mem_length (bc : BlockCipher) (hbc : GoodCipher bc) :
    ∀ (bs : List (List Nat)) (prev : List Nat), prev.length = 16 →
      (∀ b ∈ bs, b.length = 16) → ∀ c ∈ cbcEncAux bc prev bs, c.length = 16 := by
  intro bs
  induction bs with
  | nil => intro prev _ _ c hc; simp [cbcEncAux] at hc
  | cons b bs ih =>
    intro prev hprev hall c hc
    have hb : b.length = 16 := hall b (by simp)
    have hxlen : (xorBytes b prev).length = 16 := by
      rw [xorBytes_length, hb, hprev]; rfl
    have henc : (bc.enc (xorBytes b prev)).length = 16 := (hbc _ hxlen).1
    have hunfold : cbcEncAux bc prev (b :: bs) =
        bc.enc (xorBytes b prev) :: cbcEncAux bc (bc.enc (xorBytes b prev)) bs := rfl
    rw [hunfold, List.mem_cons] at hc
    rcases hc with hc | hc
    · subst hc; exact henc
    · exact ih (bc.enc (xorBytes b prev)) henc (fun x hx => hall x (by simp [hx])) c hc

theorem cbcDecAux_cbcEncAux (bc : BlockCipher) (hbc : GoodCipher bc) :
    ∀ (bs : List (List Nat)) (prev : List Nat), prev.length = 16 →
      (∀ b ∈ bs, b.length = 16) →
      cbcDecAux bc prev (cbcEncAux bc prev bs) = bs := by
  intro bs
  induction bs with
  | nil => intro prev _ _; simp [cbcEncAux, cbcDecAux]
  | cons b bs ih =>
    intro prev hprev hall
    have hb : b.length = 16 := hall b (by simp)
    have hxlen : (xorBytes b prev).length = 16 := by
      rw [xorBytes_length, hb, hprev]; rfl
    have henc : (bc.enc (xorBytes b prev)).length = 16 := (hbc _ hxlen).1
    have hdec : bc.dec (bc.enc (xorBytes b prev)) = xorBytes b prev := (hbc _ hxlen).2
    simp only [cbcEncAux, cbcDecAux, hdec]
    rw [xorBytes_xorBytes b prev (by omega)]
    rw [ih (bc.enc (xorBytes b prev)) henc (fun x hx => hall x (by simp [hx]))]

theorem pkcs7Pad_length (d : List Nat) :
    (pkcs7Pad d).length = d.length + (16 - d.length % 16) := by
  simp [pkcs7Pad]

theorem pkcs7Pad_length_mod (d : List Nat) : (pkcs7Pad d).length % 16 = 0 := by
  rw [pkcs7Pad_length]
  have h := Nat.mod_lt d.length (y := 16) (by decide)
  omega

theorem pkcs7Pad_ne_nil (d : List Nat) : pkcs7Pad d ≠ [] := by
  have h := Nat.mod_lt d.length (y := 16) (by decide)
  have : (pkcs7Pad d).length ≠ 0 := by
    rw [pkcs7Pad_length]; omega
  intro hcon
  exact this (by rw [hcon]; rfl)

theorem getLast?_replicate_pos (p x : Nat) (h : 1 ≤ p) :
    (List.replicate p x).getLast? = some x := by
  cases p with
  | zero => omega
  | succ k =>
    rw [List.replicate_succ', List.getLast?_concat]

theorem pkcs7Unpad_pkcs7Pad (d : List Nat) : pkcs7Unpad (pkcs7Pad d) = some d := by
  have hp1 : 1 ≤ 16 - d.length % 16 := by
    have h := Nat.mod_lt d.length (y := 16) (by decide)
    omega
  have hp16 : 16 - d.length % 16 ≤ 16 := by omega
  have hpad : pkcs7Pad d = d ++ List.replicate (16 - d.length % 16) (16 - d.length % 16) := rfl
  have hrep : List.replicate (16 - d.length % 16) (16 - d.length % 16) ≠ [] := by
    intro hcon
    have := congrArg List.length hcon
    simp at this
    omega
  have hlast : (pkcs7Pad d).getLast? = some (16 - d.length % 16) := by
    rw [hpad, List.getLast?_append_of_ne_nil _ hrep, getLast?_replicate_pos _ _ hp1]
  have hlen : (pkcs7Pad d).length = d.length + (16 - d.length % 16) :=
    pkcs7Pad_length d
  have hdl : (pkcs7Pad d).length - (16 - d.length % 16) = d.length := by omega
  have hdrop : (pkcs7Pad d).drop ((pkcs7Pad d).length - (16 - d.length % 16)) =
      List.replicate (16 - d.length % 16) (16 - d.length % 16) := by
    rw [hdl, hpad, List.drop_left]
  have htake : (pkcs7Pad d).take ((pkcs7Pad d).length - (16 - d.length % 16)) = d := by
    rw [hdl, hpad, List.take_left]
  unfold pkcs7Unpad
  rw [hlast]
  dsimp only
  rw [if_pos ⟨hp1, hp16, hdrop⟩, htake]

theorem chunks16_flatten (bs : List (List Nat)) (h : ∀ b ∈ bs, b.length = 16) :
    chunks16 bs.flatten = bs := by
  induction bs with
  | nil => simp [chunks16_nil]
  | cons b bs ih =>
    have hb : b.length = 16 := h b (by simp)
    have hbne : b ≠ [] := by
      intro hcon; rw [hcon] at hb; simp at hb
    have hne : (b :: bs).flatten ≠ [] := by
      simp only [List.flatten_cons]
      intro hcon
      exact hbne (List.append_eq_nil.mp hcon).1
    rw [chunks16_cons _ hne]
    simp only [List.flatten_cons]
    rw [List.take_left' hb, List.drop_left' hb]
    rw [ih (fun x hx => h x (by simp [hx]))]

theorem cbcEncAux_length (bc : BlockCipher) :
    ∀ (bs : List (List Nat)) (prev : List Nat),
      (cbcEncAux bc prev bs).length = bs.length := by
  intro bs
  induction bs with
  | nil => intro prev; rfl
  | cons b bs ih =>
    intro prev
    have : cbcEncAux bc prev (b :: bs) =
        bc.enc (xorBytes b prev) :: cbcEncAux bc (bc.enc (xorBytes b prev)) bs := rfl
    rw [this]
    simp [ih]

theorem flatten_length_of_blocks (bs : List (List Nat)) (h : ∀ b ∈ bs, b.length = 16) :
    bs.flatten.length = 16 * bs.length := by
  induction bs with
  | nil => simp
  | cons b bs ih =>
    simp only [List.flatten_cons, List.length_append, List.length_cons]
    rw [h b (by simp), ih (fun x hx => h x (by simp [hx]))]
    ring

/-- C3: encrypt/decrypt round trip.  For every byte string `B` (including
the empty one), the server's `decrypt` applied to the server's `encrypt` of
`B` returns `B`, for any good 16-byte block cipher (AES-256 under the
process-wide key, in the source) and any 16-byte IV (the process-wide IV). -/
theorem encrypt_decrypt_roundtrip (bc : BlockCipher) (iv : List Nat)
    (hbc : GoodCipher bc) (hiv : iv.length = 16) (B : List Nat) :
    VPNServer.decrypt bc iv (VPNServer.encrypt bc iv B) = some B := by
  have hpadmod : (pkcs7Pad B).length % 16 = 0 := pkcs7Pad_length_mod B
  have hblocks : ∀ b ∈ chunks16 (pkcs7Pad B), b.length = 16 :=
    chunks16_length_mem (pkcs7Pad B) hpadmod
  have hencblocks : ∀ c ∈ cbcEncAux bc iv (chunks16 (pkcs7Pad B)), c.length = 16 :=
    cbcEncAux_mem_length bc hbc (chunks16 (pkcs7Pad B)) iv hiv hblocks
  have hctlen : (cbcEncAux bc iv (chunks16 (pkcs7Pad B))).flatten.length =
      16 * (cbcEncAux bc iv (chunks16 (pkcs7Pad B))).length :=
    flatten_length_of_blocks _ hencblocks
  have hchne : chunks16 (pkcs7Pad B) ≠ [] := by
    rw [chunks16_cons (pkcs7Pad B) (pkcs7Pad_ne_nil B)]
    simp
  have hencpos : 0 < (cbcEncAux bc iv (chunks16 (pkcs7Pad B))).length := by
    rw [cbcEncAux_length]
    exact List.length_pos.mpr hchne
  unfold VPNServer.encrypt VPNServer.decrypt
  rw [if_pos ⟨by rw [hctlen]; omega, by rw [hctlen]; omega⟩]
  rw [chunks16_flatten _ hencblocks]
  rw [cbcDecAux_cbcEncAux bc hbc _ iv hiv hblocks]
  rw [join_chunks16, pkcs7Unpad_pkcs7Pad]

/-- Witness for C3 at a concrete input: the identity block cipher is good,
the all-zero IV has length 16, and the round trip is evaluated at the byte
string `[104, 105]` ("hi"). -/
theorem encrypt_decrypt_roundtrip_witness :
    VPNServer.decrypt idCipher iv16 (VPNServer.encrypt idCipher iv16 [104, 105]) =
      some [104, 105] :=
  encrypt_decrypt_roundtrip idCipher iv16
    (fun b hb => ⟨hb, rfl⟩) (by decide) [104, 105]

/-!
Hex encoding/decoding, modelling Node's `buf.toString('hex')` and
`Buffer.from(str, 'hex')`.  `Buffer.from` stops at the first character pair
that is not valid hex and drops a trailing unpaired character.
-/

/-- Lowercase hex digit for a value below 16 (Node emits lowercase hex). -/
def toHexDigit (n : Nat) : Char :=
  if n < 10 then Char.ofNat (48 + n) else Char.ofNat (97 + (n - 10))

/-- Hex encoding of a byte string (`buf.toString('hex')`). -/
def hexEncode (bs : List Nat) : String :=
  ⟨(bs.map (fun b => [toHexDigit (b / 16 % 16), toHexDigit (b % 16)])).flatten⟩

/-- Value of a hex digit character, `none` when the character is not hex. -/
def hexVal (c : Char) : Option Nat :=
  if '0' ≤ c ∧ c ≤ '9' then some (c.toNat - 48)
  else if 'a' ≤ c ∧ c ≤ 'f' then some (c.toNat - 87)
  else if 'A' ≤ c ∧ c ≤ 'F' then some (c.toNat - 55)
  else none

/-- Hex decoding of a character list: decodes pairs of hex digits, stopping
at the first invalid pair and dropping a trailing unpaired character, like
Node's `Buffer.from(str, 'hex')`. -/
def hexDecodeAux : List Char → List Nat
  | c1 :: c2 :: rest =>
    match hexVal c1, hexVal c2 with
    | some h, some l => (16 * h + l) :: hexDecodeAux rest
    | _, _ => []
  | _ => []

/-- Hex decoding of a string (`Buffer.from(s, 'hex')`). -/
def hexDecode (s : String) : List Nat :=
  hexDecodeAux s.data

/-!
The wire messages.  Inbound client messages are newline-delimited JSON; the
server (src/index.js lines 366-400) calls `JSON.parse` on the raw chunk and
dispatches on `message.type`, recognising `ping`, `data` and `tunnel`; any
chunk that fails to parse is treated as raw data and dropped, and parsed
messages of any other type fall through the `if` chain with no effect.

`parseMsg` below recognises the canonical serializations of the three
dispatched message kinds (the exact forms produced by the reference
client's `JSON.stringify`, with optional trailing whitespace, which
`JSON.parse` accepts).  A chunk it does not recognise takes the
"no dispatched message" path, which in the server has no observable effect
beyond the bytesReceived counter (console logging is not modelled).
-/

/-- Inbound protocol messages dispatched by `handleClientData`.  In
`dataMsg`, `encrypted` is the JSON boolean and `payload` is the JSON string
field, `none` when the field is absent (the JS code checks truthiness, so
`false` and the empty string are also rejected there). -/
inductive InMsg where
  | ping (timestamp : Nat)
  | dataMsg (encrypted : Bool) (payload : Option String)
  | tunnel (request : Option String)
  deriving DecidableEq, Repr

/-- Outbound server messages. -/
inductive OutMsg where
  | welcome (clientId : Nat) (message : String) (encryptionKey : String) (encryptionIV : String)
  | pong (timestamp : Nat)
  | tunnelEstablished (status : String)
  | relay (fromClient : Nat) (data : String)
  deriving DecidableEq, Repr

/-- The `JSON.stringify` serialization of an outbound message (field order
is insertion order, as in the source). -/
def serializeOut : OutMsg → String
  | .welcome cid msg keyHex ivHex =>
    "\x7b\"type\":\"welcome\",\"clientId\":" ++ toString cid ++
      ",\"message\":\"" ++ msg ++ "\",\"encryptionKey\":\"" ++ keyHex ++
      "\",\"encryptionIV\":\"" ++ ivHex ++ "\"\x7d"
  | .pong t => "\x7b\"type\":\"pong\",\"timestamp\":" ++ toString t ++ "\x7d"
  | .tunnelEstablished st =>
    "\x7b\"type\":\"tunnel_established\",\"status\":\"" ++ st ++ "\"\x7d"
  | .relay fromC dataHex =>
    "\x7b\"type\":\"relay\",\"fromClient\":" ++ toString fromC ++
      ",\"data\":\"" ++ dataHex ++ "\"\x7d"

/-- Consume an expected literal from the front of the input; `none` when the
input does not start with it. -/
def eatLit : List Char → List Char → Option (List Char)
  | [], input => some input
  | _ :: _, [] => none
  | c :: cs, d :: ds => if c = d then eatLit cs ds else none

/-- Consume a run of decimal digits, returning its value; `none` when the
input does not start with a digit. -/
def digitsRun : List Char → Nat → Nat × List Char
  | c :: cs, acc =>
    if c.isDigit then digitsRun cs (10 * acc + (c.toNat - 48)) else (acc, c :: cs)
  | [], acc => (acc, [])

def parseNat : List Char → Option (Nat × List Char)
  | c :: cs => if c.isDigit then some (digitsRun cs (c.toNat - 48)) else none
  | [] => none

/-- Consume a JSON string literal without escape sequences. -/
def strBodyRun : List Char → List Char → Option (String × List Char)
  | [], _ => none
  | c :: rest, acc =>
    if c = '"' then some (⟨acc.reverse⟩, rest)
    else if c = '\\' then none
    else strBodyRun rest (c :: acc)

def parseStr : List Char → Option (String × List Char)
  | '"' :: cs => strBodyRun cs []
  | _ => none

/-- Only JSON whitespace remains (what `JSON.parse` tolerates after the
top-level value, e.g. the trailing newline delimiter). -/
def wsOnly (cs : List Char) : Bool :=
  cs.all fun c => c = ' ' ∨ c = '\n' ∨ c = '\t' ∨ c = '\r'

def parsePing (cs : List Char) : Option InMsg := do
  let r1 ← eatLit ("\x7b\"type\":\"ping\",\"timestamp\":").data cs
  let (t, r2) ← parseNat r1
  let r3 ← eatLit ("\x7d").data r2
  if wsOnly r3 then some (.ping t) else none

def parseBool : List Char → Option (Bool × List Char)
  | cs =>
    match eatLit ("true").data cs with
    | some r => some (true, r)
    | none =>
      match eatLit ("false").data cs with
      | some r => some (false, r)
      | none => none

def parseData (cs : List Char) : Option InMsg := do
  let r1 ← eatLit ("\x7b\"type\":\"data\"").data cs
  match eatLit (",\"encrypted\":").data r1 with
  | some r2 => do
    let (enc, r3) ← parseBool r2
    match eatLit (",\"payload\":").data r3 with
    | some r4 => do
      let (p, r5) ← parseStr r4
      let r6 ← eatLit ("\x7d").data r5
      if wsOnly r6 then some (.dataMsg enc (some p)) else none
    | none => do
      let r4 ← eatLit ("\x7d").data r3
      if wsOnly r4 then some (.dataMsg enc none) else none
  | none => do
    let r2 ← eatLit ("\x7d").data r1
    if wsOnly r2 then some (.dataMsg false none) else none

def parseTunnel (cs : List Char) : Option InMsg := do
  let r1 ← eatLit ("\x7b\"type\":\"tunnel\"").data cs
  match eatLit (",\"request\":").data r1 with
  | some r2 => do
    let (req, r3) ← parseStr r2
    let r4 ← eatLit ("\x7d").data r3
    if wsOnly r4 then some (.tunnel (some req)) else none
  | none => do
    let r2 ← eatLit ("\x7d").data r1
    if wsOnly r2 then some (.tunnel none) else none

/-- Parse one inbound chunk as a dispatched protocol message (`JSON.parse`
followed by the `message.type` dispatch of `handleClientData`); `none` when
the chunk is not a recognised complete message in one piece. -/
def parseMsg (s : String) : Option InMsg :=
  match parsePing s.data with
  | some m => some m
  | none =>
    match parseData s.data with
    | some m => some m
    | none => parseTunnel s.data

example : parseMsg "\x7b\"type\":\"ping\",\"timestamp\":12345\x7d\n" = some (.ping 12345) := by
  decide

example : parseMsg "\x7b\"type\":\"ping\",\"tim" = none := by decide

example : parseMsg "estamp\":0\x7d\n" = none := by decide

example :
    parseMsg "\x7b\"type\":\"data\",\"encrypted\":true,\"payload\":\"1011\"\x7d\n" =
      some (.dataMsg true (some "1011")) := by decide

example : parseMsg "\x7b\"type\":\"data\",\"encrypted\":false\x7d" =
    some (.dataMsg false none) := by decide

example : parseMsg "\x7b\"type\":\"tunnel\",\"request\":\"establish\"\x7d\n" =
    some (.tunnel (some "establish")) := by decide

/-!
Server state.  The JS registry `this.clients` is an object keyed by the
numeric client id (necessarily without duplicate keys, and iterated by
`Object.keys` in ascending numeric insertion order); it is modelled as an
association list to which `handleConnection` appends.  Sockets are JS
objects that outlive their registry entry, so they live in a separate
`sockets` store keyed by an opaque socket id and are only marked
`destroyed`, never removed.
-/

/-- One socket handle; `destroyed` is set by `socket.destroy()`. -/
structure SocketBox where
  destroyed : Bool
  deriving DecidableEq, Repr

/-- The `clientInfo` record built in `handleConnection` (src/index.js lines
312-320); the JS `socket` field is the `socketId` key into the socket
store. -/
structure ClientInfo where
  id : Nat
  socketId : Nat
  address : String
  port : Nat
  connected : Bool
  bytesReceived : Nat
  bytesSent : Nat
  deriving DecidableEq, Repr

/-- The mutable state of a `VPNServer`: `clients`, the socket store, and
`clientIdCounter`. -/
structure ServerState where
  clients : List (Nat × ClientInfo)
  sockets : List (Nat × SocketBox)
  clientIdCounter : Nat
  deriving DecidableEq, Repr

/-- The state of a freshly constructed `VPNServer` (counter 0, no
clients). -/
def initialServerState : ServerState :=
  { clients := [], sockets := [], clientIdCounter := 0 }

/-- `this.clients[clientId]` (property lookup in the registry object). -/
def lookupClient : List (Nat × ClientInfo) → Nat → Option ClientInfo
  | [], _ => none
  | kv :: rest, k => if kv.1 = k then some kv.2 else lookupClient rest k

/-- In-place mutation of one client record (JS mutates the object held in
the registry). -/
def updateClient (l : List (Nat × ClientInfo)) (k : Nat) (f : ClientInfo → ClientInfo) :
    List (Nat × ClientInfo) :=
  l.map fun kv => if kv.1 = k then (kv.1, f kv.2) else kv

/-- `client.bytesReceived += data.length`. -/
def bumpReceived (s : ServerState) (cid : Nat) (n : Nat) : ServerState :=
  let f := fun c : ClientInfo => { c with bytesReceived := c.bytesReceived + n }
  { s with clients := updateClient s.clients cid f }

/-- `socket.destroy()` if not already destroyed (the source's guard;
observationally the same as setting the flag). -/
def destroySocket (sockets : List (Nat × SocketBox)) (sid : Nat) : List (Nat × SocketBox) :=
  sockets.map fun kv => if kv.1 = sid then (kv.1, ⟨true⟩) else kv

/-- `VPNServer.prototype.sendToClient` (src/index.js lines 409-417): look
the client up; if present and connected, write the framed JSON message to
its socket (the emitted `(clientId, message)` pair) and add the frame
length to `bytesSent`; otherwise do nothing. -/
def VPNServer.sendToClient (s : ServerState) (cid : Nat) (m : OutMsg) :
    ServerState × List (Nat × OutMsg) :=
  match lookupClient s.clients cid with
  | some c =>
    if c.connected = true then
      let f := fun c2 : ClientInfo =>
        { c2 with bytesSent := c2.bytesSent + ((serializeOut m).length + 1) }
      ({ s with clients := updateClient s.clients cid f }, [(cid, m)])
    else (s, [])
  | none => (s, [])

/-- `VPNServer.prototype.broadcastToOthers` (src/index.js lines 420-428):
iterate `Object.keys(this.clients)` and `sendToClient` to every key other
than the sender. -/
def VPNServer.broadcastToOthers (s : ServerState) (senderId : Nat) (m : OutMsg) :
    ServerState × List (Nat × OutMsg) :=
  (s.clients.map fun kv => kv.1).foldl
    (fun acc k =>
      if k ≠ senderId then
        let r := VPNServer.sendToClient acc.1 k m
        (r.1, acc.2 ++ r.2)
      else acc)
    (s, [])

/-- `VPNServer.prototype.removeClient` (src/index.js lines 431-441): if the
id is in the registry, destroy its socket (if not already destroyed) and
delete the registry entry; otherwise do nothing.  (The source also sets
`client.connected = false` on the record just before deleting it; the
record leaves the registry in the same statement, so this has no observable
effect and the deletion subsumes it.) -/
def VPNServer.removeClient (s : ServerState) (cid : Nat) : ServerState :=
  match lookupClient s.clients cid with
  | none => s
  | some c =>
    { s with clients := s.clients.filter fun kv => kv.1 != cid,
             sockets := destroySocket s.sockets c.socketId }

/-- `VPNServer.prototype.handleConnection` (src/index.js lines 309-335):
assign `++this.clientIdCounter` as the id, append the new client record,
and write the welcome frame (with the process key and IV in hex) directly
to the socket — note this write does not go through `sendToClient` and does
not count towards `bytesSent`.  The fresh socket handle enters the socket
store here. -/
def VPNServer.handleConnection (keyBytes ivBytes : List Nat) (s : ServerState)
    (addr : String) (rport : Nat) (sockId : Nat) : ServerState × List (Nat × OutMsg) :=
  let clientId := s.clientIdCounter + 1
  let info : ClientInfo :=
    { id := clientId, socketId := sockId, address := addr, port := rport,
      connected := true, bytesReceived := 0, bytesSent := 0 }
  ({ s with clientIdCounter := clientId,
            clients := s.clients ++ [(clientId, info)],
            sockets := s.sockets ++ [(sockId, ⟨false⟩)] },
   [(clientId, .welcome clientId "Connected to VPN Server"
       (hexEncode keyBytes) (hexEncode ivBytes))])

/-- `VPNServer.prototype.handleClientData` (src/index.js lines 356-406):
drop the chunk when the client is unknown; otherwise count its bytes, parse
the whole chunk with `JSON.parse`, and dispatch: `ping` answers a `pong`
carrying `Date.now()` (the parameter `now`); `data` with truthy `encrypted`
and `payload` hex-decodes the payload, decrypts it, and on success
broadcasts a `relay` with the hex plaintext to everyone else (a decrypt
failure suppresses the broadcast); `tunnel` answers `tunnel_established`;
an unparseable chunk (including any fragment of a message split across
chunks) is treated as raw data and dropped. -/
def VPNServer.handleClientData (bc : BlockCipher) (iv : List Nat) (now : Nat)
    (s : ServerState) (clientId : Nat) (chunk : String) :
    ServerState × List (Nat × OutMsg) :=
  match lookupClient s.clients clientId with
  | none => (s, [])
  | some _ =>
    let s1 := bumpReceived s clientId chunk.length
    match parseMsg chunk with
    | some (.ping _) => VPNServer.sendToClient s1 clientId (.pong now)
    | some (.dataMsg enc payload) =>
      match payload with
      | some p =>
        if enc = true ∧ p ≠ "" then
          match VPNServer.decrypt bc iv (hexDecode p) with
          | some pt =>
            VPNServer.broadcastToOthers s1 clientId (.relay clientId (hexEncode pt))
          | none => (s1, [])
        else (s1, [])
      | none => (s1, [])
    | some (.tunnel _) => VPNServer.sendToClient s1 clientId (.tunnelEstablished "ready")
    | none => (s1, [])

/-- Feed a sequence of inbound chunks from one connection through
`handleClientData`, accumulating the emitted messages. -/
def processChunks (bc : BlockCipher) (iv : List Nat) (now : Nat)
    (s : ServerState) (cid : Nat) : List String → ServerState × List (Nat × OutMsg)
  | [] => (s, [])
  | ch :: rest =>
    let r := VPNServer.handleClientData bc iv now s cid ch
    let r2 := processChunks bc iv now r.1 cid rest
    (r2.1, r.2 ++ r2.2)

/-- The aggregate snapshot returned by `getStats`. -/
structure ServerStats where
  connectedClients : Nat
  totalBytesReceived : Nat
  totalBytesSent : Nat
  uptime : Nat
  deriving DecidableEq, Repr

/-- `VPNServer.prototype.getStats` (src/index.js lines 444-462): count the
registry keys and fold the two byte counters over all client records;
`uptime` is `process.uptime()`, a parameter here. -/
def VPNServer.getStats (s : ServerState) (uptime : Nat) : ServerStats :=
  let totalClients := (s.clients.map fun kv => kv.1).length
  let totals := s.clients.foldl
    (fun acc kv => (acc.1 + kv.2.bytesReceived, acc.2 + kv.2.bytesSent)) (0, 0)
  { connectedClients := totalClients,
    totalBytesReceived := totals.1,
    totalBytesSent := totals.2,
    uptime := uptime }

/-- The `'error'` handler installed on the listener in
`VPNServer.prototype.start` (src/index.js lines 481-486): log the error
message, log a distinct port-in-use line when the code is `EADDRINUSE`, and
return to the event loop — the handler contains no `process.exit` call, so
the exit-code component is always `none`. -/
def VPNServer.onServerError (port : Nat) (code : String) (msg : String) :
    List String × Option Nat :=
  (["[VPN Server] Server error: " ++ msg] ++
     (if code = "EADDRINUSE"
      then ["Port " ++ toString port ++ " is already in use"] else []),
   none)

/-!
Lemmas about the registry and the broadcast fold.  `profileS` projects the
registry to the data that `sendToClient`/`broadcastToOthers` emission
depends on (keys and connected flags); byte-counter mutations preserve it.
-/

/-- Keys and connected flags of the registry, in order. -/
def profileS (s : ServerState) : List (Nat × Bool) :=
  s.clients.map fun kv => (kv.1, kv.2.connected)

/-- Lookup in a key/flag list (same first-match rule as `lookupClient`). -/
def lookupFlag : List (Nat × Bool) → Nat → Option Bool
  | [], _ => none
  | kv :: rest, k => if kv.1 = k then some kv.2 else lookupFlag rest k

/-- The messages a broadcast over iteration order `ks` emits, as a function
of the profile. -/
def broadcastOuts (pf : List (Nat × Bool)) (sid : Nat) (m : OutMsg) (ks : List Nat) :
    List (Nat × OutMsg) :=
  ks.filterMap fun k =>
    if k ≠ sid then
      match lookupFlag pf k with
      | some true => some (k, m)
      | _ => none
    else none

theorem lookupFlag_profileS (l : List (Nat × ClientInfo)) (k : Nat) :
    lookupFlag (l.map fun kv => (kv.1, kv.2.connected)) k =
      (lookupClient l k).map fun c => c.connected := by
  induction l with
  | nil => rfl
  | cons kv rest ih =>
    simp only [List.map_cons, lookupFlag, lookupClient]
    by_cases h : kv.1 = k
    · simp [h]
    · simp [h, ih]

theorem lookupClient_updateClient_self (l : List (Nat × ClientInfo)) (k : Nat)
    (f : ClientInfo → ClientInfo) :
    lookupClient (updateClient l k f) k = (lookupClient l k).map f := by
  induction l with
  | nil => rfl
  | cons kv rest ih =>
    simp only [updateClient, List.map_cons] at *
    by_cases h : kv.1 = k
    · simp [lookupClient, h]
    · simp [lookupClient, h, ih]

theorem keys_updateClient (l : List (Nat × ClientInfo)) (k : Nat)
    (f : ClientInfo → ClientInfo) :
    ((updateClient l k f).map fun kv => kv.1) = l.map fun kv => kv.1 := by
  induction l with
  | nil => rfl
  | cons kv rest ih =>
    simp only [updateClient, List.map_cons] at *
    by_cases h : kv.1 = k
    · simp [h, ih]
    · simp [h, ih]

theorem profile_updateClient (l : List (Nat × ClientInfo)) (k : Nat)
    (f : ClientInfo → ClientInfo) (hf : ∀ c, (f c).connected = c.connected) :
    ((updateClient l k f).map fun kv => (kv.1, kv.2.connected)) =
      l.map fun kv => (kv.1, kv.2.connected) := by
  induction l with
  | nil => rfl
  | cons kv rest ih =>
    simp only [updateClient, List.map_cons] at *
    by_cases h : kv.1 = k
    · simp [h, ih, hf]
    · simp [h, ih]

theorem profileS_bumpReceived (s : ServerState) (cid n : Nat) :
    profileS (bumpReceived s cid n) = profileS s :=
  profile_updateClient s.clients cid
    (fun c => { c with bytesReceived := c.bytesReceived + n }) (fun c => rfl)

theorem keys_bumpReceived (s : ServerState) (cid n : Nat) :
    ((bumpReceived s cid n).clients.map fun kv => kv.1) =
      s.clients.map fun kv => kv.1 :=
  keys_updateClient s.clients cid
    (fun c => { c with bytesReceived := c.bytesReceived + n })

theorem sendToClient_fst_profile (s : ServerState) (k : Nat) (m : OutMsg) :
    profileS (VPNServer.sendToClient s k m).1 = profileS s := by
  unfold VPNServer.sendToClient
  cases hl : lookupClient s.clients k with
  | none => rfl
  | some c =>
    by_cases hc : c.connected = true
    · simp only [hc, if_true]
      exact profile_updateClient s.clients k
        (fun c2 => { c2 with bytesSent := c2.bytesSent + ((serializeOut m).length + 1) })
        (fun c2 => rfl)
    · simp [hc]

theorem sendToClient_snd (s : ServerState) (k : Nat) (m : OutMsg) :
    (VPNServer.sendToClient s k m).2 =
      (match lookupFlag (profileS s) k with
       | some true => [(k, m)]
       | _ => []) := by
  unfold profileS
  rw [lookupFlag_profileS]
  unfold VPNServer.sendToClient
  cases hl : lookupClient s.clients k with
  | none => rfl
  | some c =>
    by_cases hc : c.connected = true
    · simp [hc]
    · have hcf : c.connected = false := by
        cases hcc : c.connected
        · rfl
        · exact absurd hcc hc
      simp [hc, hcf]

theorem broadcastFold (sid : Nat) (m : OutMsg) :
    ∀ (ks : List Nat) (s : ServerState) (acc : List (Nat × OutMsg)),
      (ks.foldl
          (fun acc k =>
            if k ≠ sid then
              let r := VPNServer.sendToClient acc.1 k m
              (r.1, acc.2 ++ r.2)
            else acc)
          (s, acc)).2 = acc ++ broadcastOuts (profileS s) sid m ks ∧
      profileS
        (ks.foldl
          (fun acc k =>
            if k ≠ sid then
              let r := VPNServer.sendToClient acc.1 k m
              (r.1, acc.2 ++ r.2)
            else acc)
          (s, acc)).1 = profileS s := by
  intro ks
  induction ks with
  | nil => intro s acc; simp [broadcastOuts]
  | cons k ks ih =>
    intro s acc
    by_cases hk : k ≠ sid
    · simp only [List.foldl_cons, if_pos hk]
      rcases ih (VPNServer.sendToClient s k m).1 (acc ++ (VPNServer.sendToClient s k m).2)
        with ⟨ih1, ih2⟩
      rw [ih1, ih2, sendToClient_fst_profile, sendToClient_snd]
      refine ⟨?_, rfl⟩
      simp only [broadcastOuts, List.filterMap_cons, if_pos hk]
      cases hf : lookupFlag (profileS s) k with
      | none => simp [broadcastOuts]
      | some b =>
        cases b with
        | false => simp [broadcastOuts]
        | true => simp [broadcastOuts]
    · simp only [List.foldl_cons, if_neg hk]
      rcases ih s acc with ⟨ih1, ih2⟩
      rw [ih1, ih2]
      refine ⟨?_, rfl⟩
      simp only [broadcastOuts, List.filterMap_cons, if_neg hk]

theorem broadcastToOthers_snd (s : ServerState) (sid : Nat) (m : OutMsg) :
    (VPNServer.broadcastToOthers s sid m).2 =
      broadcastOuts (profileS s) sid m (s.clients.map fun kv => kv.1) := by
  unfold VPNServer.broadcastToOthers
  rcases broadcastFold sid m (s.clients.map fun kv => kv.1) s [] with ⟨h1, _⟩
  rw [h1]
  rfl

theorem broadcastToOthers_fst_profile (s : ServerState) (sid : Nat) (m : OutMsg) :
    profileS (VPNServer.broadcastToOthers s sid m).1 = profileS s := by
  unfold VPNServer.broadcastToOthers
  exact (broadcastFold sid m (s.clients.map fun kv => kv.1) s []).2

/-!
Concrete fixtures for witnesses and counterexamples.
-/

/-- A concrete connected client record. -/
def client1 : ClientInfo :=
  { id := 1, socketId := 1, address := "", port := 0,
    connected := true, bytesReceived := 0, bytesSent := 0 }

/-- A server with one connected client (id 1). -/
def st1 : ServerState :=
  { clients := [(1, client1)], sockets := [(1, ⟨false⟩)], clientIdCounter := 1 }

/-- A server with three connected clients (ids 1, 2, 3). -/
def st3 : ServerState :=
  { clients := [(1, client1),
                (2, { client1 with id := 2, socketId := 2 }),
                (3, { client1 with id := 3, socketId := 3 })],
    sockets := [(1, ⟨false⟩), (2, ⟨false⟩), (3, ⟨false⟩)],
    clientIdCounter := 3 }

/-!
C6: identity assignment.  A trace of registrations and deregistrations over
the server's lifetime, starting from the freshly constructed state.
-/

/-- A connection-lifecycle event: a new connection accepted
(`handleConnection`) or a client removed (`removeClient`, as performed by
the `'end'`/`'error'` handlers). -/
inductive RegOp where
  | register
  | deregister (id : Nat)
  deriving DecidableEq, Repr

/-- Run a trace of lifecycle events, collecting the identity assigned at
each registration (`handleConnection` assigns `++this.clientIdCounter`). -/
def runOps (kb ivb : List Nat) : ServerState → List RegOp → ServerState × List Nat
  | s, [] => (s, [])
  | s, RegOp.register :: rest =>
    let r := VPNServer.handleConnection kb ivb s "" 0 (s.clientIdCounter + 1)
    let r2 := runOps kb ivb r.1 rest
    (r2.1, (s.clientIdCounter + 1) :: r2.2)
  | s, RegOp.deregister id :: rest => runOps kb ivb (VPNServer.removeClient s id) rest

/-- Number of registrations in a trace. -/
def countRegisters : List RegOp → Nat
  | [] => 0
  | RegOp.register :: rest => countRegisters rest + 1
  | RegOp.deregister _ :: rest => countRegisters rest

theorem removeClient_counter (s : ServerState) (id : Nat) :
    (VPNServer.removeClient s id).clientIdCounter = s.clientIdCounter := by
  unfold VPNServer.removeClient
  cases lookupClient s.clients id <;> rfl

theorem runOps_assigned (kb ivb : List Nat) :
    ∀ (ops : List RegOp) (s : ServerState),
      (runOps kb ivb s ops).2 =
        List.range' (s.clientIdCounter + 1) (countRegisters ops) := by
  intro ops
  induction ops with
  | nil => intro s; rfl
  | cons op rest ih =>
    cases op with
    | register =>
      intro s
      show ((runOps kb ivb _ rest).1, (s.clientIdCounter + 1) :: (runOps kb ivb _ rest).2).2 = _
      dsimp only
      rw [ih]
      have hcnt :
          (VPNServer.handleConnection kb ivb s "" 0 (s.clientIdCounter + 1)).1.clientIdCounter =
            s.clientIdCounter + 1 := rfl
      rw [hcnt, countRegisters, List.range'_succ]
    | deregister id =>
      intro s
      show (runOps kb ivb (VPNServer.removeClient s id) rest).2 = _
      rw [ih, removeClient_counter, countRegisters]

theorem range'_pairwise_lt : ∀ (n a : Nat), (List.range' a n).Pairwise (· < ·) := by
  intro n
  induction n with
  | zero => intro a; simp
  | succ n ih =>
    intro a
    rw [List.range'_succ]
    refine List.Pairwise.cons ?_ (ih (a + 1))
    intro b hb
    rcases List.mem_range'.mp hb with ⟨i, hi, rfl⟩
    omega

/-- C6: identity uniqueness.  Over any lifetime trace of registrations and
removals starting from the fresh server, the identities assigned (in
acceptance order) are exactly `1, 2, ..., N` for `N` registrations: all
distinct positive integers, strictly increasing, starting from 1; removals
never decrement the counter, so a closed session's identity is never
reassigned later in the trace. -/
theorem identity_assignment_spec (kb ivb : List Nat) (ops : List RegOp) :
    (runOps kb ivb initialServerState ops).2 = List.range' 1 (countRegisters ops) ∧
    (runOps kb ivb initialServerState ops).2.Pairwise (· < ·) ∧
    ∀ i ∈ (runOps kb ivb initialServerState ops).2, 0 < i := by
  have h := runOps_assigned kb ivb ops initialServerState
  have h' : (runOps kb ivb initialServerState ops).2 =
      List.range' 1 (countRegisters ops) := h
  refine ⟨h', ?_, ?_⟩
  · rw [h']; exact range'_pairwise_lt _ _
  · rw [h']
    intro i hi
    rcases List.mem_range'.mp hi with ⟨j, hj, rfl⟩
    omega

/-!
C7: the listener `'error'` handler.
-/

/-- C7 counterexample: at the concrete address-in-use error, the handler
logs (including the distinct port-in-use line) but its exit component is
`none` — the process does not exit, contradicting the claim that a bind
failure terminates the process with a non-zero status. -/
theorem onServerError_no_exit_counterexample :
    (VPNServer.onServerError 8888 "EADDRINUSE" "listen EADDRINUSE").2 = none ∧
    (VPNServer.onServerError 8888 "EADDRINUSE" "listen EADDRINUSE").1 =
      ["[VPN Server] Server error: listen EADDRINUSE",
       "Port 8888 is already in use"] := by
  refine ⟨rfl, ?_⟩
  decide

/-- C7 amended: a bind error is logged, with a distinct extra line when the
code is `EADDRINUSE`, but the handler never exits the process — no error is
process-fatal in the server code. -/
theorem onServerError_spec (port : Nat) (code msg : String) :
    (VPNServer.onServerError port code msg).2 = none ∧
    (code = "EADDRINUSE" →
      (VPNServer.onServerError port code msg).1 =
        ["[VPN Server] Server error: " ++ msg,
         "Port " ++ toString port ++ " is already in use"]) ∧
    (code ≠ "EADDRINUSE" →
      (VPNServer.onServerError port code msg).1 =
        ["[VPN Server] Server error: " ++ msg]) := by
  refine ⟨rfl, ?_, ?_⟩
  · intro h
    simp [VPNServer.onServerError, h]
  · intro h
    simp [VPNServer.onServerError, h]

/-- Witness for the amended C7 at a concrete error. -/
theorem onServerError_spec_witness :
    (VPNServer.onServerError 9999 "EADDRINUSE" "boom").1 =
      ["[VPN Server] Server error: boom", "Port 9999 is already in use"] :=
  (onServerError_spec 9999 "EADDRINUSE" "boom").2.1 rfl

/-!
C8: `removeClient` idempotence.
-/

theorem lookupClient_filter_self (l : List (Nat × ClientInfo)) (cid : Nat) :
    lookupClient (l.filter fun kv => kv.1 != cid) cid = none := by
  induction l with
  | nil => rfl
  | cons kv rest ih =>
    by_cases h : kv.1 = cid
    · simp [List.filter_cons, h, ih]
    · simp only [List.filter_cons]
      rw [if_pos (by simp [h]), lookupClient, if_neg h]
      exact ih

/-- C8: removal is idempotent.  Removing the same identity twice leaves the
registry and the socket store exactly as removing it once does (no second
destroy happens), and removing an identity that is not registered is a
no-op on the whole state. -/
theorem removeClient_idempotent (s : ServerState) (cid : Nat) :
    VPNServer.removeClient (VPNServer.removeClient s cid) cid =
      VPNServer.removeClient s cid ∧
    (lookupClient s.clients cid = none → VPNServer.removeClient s cid = s) := by
  have key : ∀ t : ServerState, lookupClient t.clients cid = none →
      VPNServer.removeClient t cid = t := by
    intro t ht
    unfold VPNServer.removeClient
    rw [ht]
  constructor
  · cases hl : lookupClient s.clients cid with
    | none =>
      rw [key s hl, key s hl]
    | some c =>
      have h1 : VPNServer.removeClient s cid =
          { s with clients := s.clients.filter fun kv => kv.1 != cid,
                   sockets := destroySocket s.sockets c.socketId } := by
        unfold VPNServer.removeClient
        rw [hl]
      rw [h1]
      exact key _ (lookupClient_filter_self s.clients cid)
  · intro h
    exact key s h

/-- Witness for C8: double removal of the present id 1 equals single
removal, and removal of the absent id 7 is a no-op, on the one-client
server. -/
theorem removeClient_idempotent_witness :
    VPNServer.removeClient (VPNServer.removeClient st1 1) 1 =
      VPNServer.removeClient st1 1 ∧
    VPNServer.removeClient st1 7 = st1 :=
  ⟨(removeClient_idempotent st1 1).1, (removeClient_idempotent st1 7).2 rfl⟩

/-!
C9: `getStats`.
-/

theorem foldl_pair_sum (l : List (Nat × ClientInfo)) :
    ∀ a b : Nat,
      l.foldl (fun acc kv => (acc.1 + kv.2.bytesReceived, acc.2 + kv.2.bytesSent)) (a, b) =
        (a + (l.map fun kv => kv.2.bytesReceived).sum,
         b + (l.map fun kv => kv.2.bytesSent).sum) := by
  induction l with
  | nil => intro a b; simp
  | cons kv rest ih =>
    intro a b
    simp only [List.foldl_cons, List.map_cons, List.sum_cons]
    rw [ih]
    simp [Nat.add_assoc]

/-- C9: the stats snapshot.  `getStats` returns exactly the number of
registered sessions, the sums of the per-session byte counters, and the
supplied uptime; it is a pure function of the state (the registry is not
part of its result and is left untouched). -/
theorem getStats_spec (s : ServerState) (u : Nat) :
    VPNServer.getStats s u =
      { connectedClients := s.clients.length,
        totalBytesReceived := (s.clients.map fun kv => kv.2.bytesReceived).sum,
        totalBytesSent := (s.clients.map fun kv => kv.2.bytesSent).sum,
        uptime := u } := by
  unfold VPNServer.getStats
  rw [foldl_pair_sum]
  simp [List.length_map]

/-!
C10: `Data` messages with falsy `encrypted` or missing/falsy `payload` are
silently dropped.
-/

/-- C10: a `data` message whose `encrypted` field is falsy, or whose
`payload` is absent or the empty string, is silently dropped by
`handleClientData`: no reply or relay is emitted and the state changes only
by the sender's `bytesReceived` counter growing by the chunk length. -/
theorem dataDropped_spec (bc : BlockCipher) (iv : List Nat) (now : Nat)
    (s : ServerState) (cid : Nat) (c : ClientInfo) (chunk : String)
    (enc : Bool) (payload : Option String)
    (hc : lookupClient s.clients cid = some c)
    (hp : parseMsg chunk = some (.dataMsg enc payload))
    (hdrop : enc = false ∨ payload = none ∨ payload = some "") :
    VPNServer.handleClientData bc iv now s cid chunk =
      (bumpReceived s cid chunk.length, []) := by
  simp only [VPNServer.handleClientData, hc, hp]
  rcases hdrop with h | h | h
  · subst h
    cases payload with
    | none => rfl
    | some p => simp
  · subst h; rfl
  · subst h
    simp

/-- Witness for C10: the one-client server receives a `data` frame with
`encrypted:false` and no payload; the result is exactly the byte-counter
bump with no emitted messages. -/
theorem dataDropped_witness :
    VPNServer.handleClientData idCipher iv16 0 st1 1
        "\x7b\"type\":\"data\",\"encrypted\":false\x7d" =
      (bumpReceived st1 1 ("\x7b\"type\":\"data\",\"encrypted\":false\x7d").length, []) :=
  dataDropped_spec idCipher iv16 0 st1 1 client1
    "\x7b\"type\":\"data\",\"encrypted\":false\x7d" false none
    rfl (by decide) (Or.inl rfl)

/-!
C4: decrypt-failure containment.
-/

/-- C4: a ciphertext that fails the cipher's length or padding checks makes
`decrypt` return the failure value `none` (the JS `null`; the exception is
caught, so nothing is thrown and the connection is untouched), and a `data`
frame carrying such a ciphertext produces no relay (or any other) message:
the broadcast is suppressed entirely and only the sender's `bytesReceived`
counter changes. -/
theorem decryptFailure_spec (bc : BlockCipher) (iv : List Nat) (now : Nat)
    (s : ServerState) (cid : Nat) (c : ClientInfo) (chunk p : String) (ct : List Nat)
    (hfail : ct.length % 16 ≠ 0 ∨ ct.length = 0 ∨
      pkcs7Unpad ((cbcDecAux bc iv (chunks16 ct)).flatten) = none) :
    VPNServer.decrypt bc iv ct = none ∧
    (lookupClient s.clients cid = some c →
      parseMsg chunk = some (.dataMsg true (some p)) →
      p ≠ "" →
      hexDecode p = ct →
      VPNServer.handleClientData bc iv now s cid chunk =
        (bumpReceived s cid chunk.length, [])) := by
  have hdec : VPNServer.decrypt bc iv ct = none := by
    unfold VPNServer.decrypt
    rcases hfail with h | h | h
    · rw [if_neg]
      intro hcon
      exact h hcon.1
    · rw [if_neg]
      intro hcon
      exact hcon.2 h
    · by_cases hcnd : ct.length % 16 = 0 ∧ ct.length ≠ 0
      · rw [if_pos hcnd, h]
      · rw [if_neg hcnd]
  refine ⟨hdec, ?_⟩
  intro hc hp hne hhex
  simp only [VPNServer.handleClientData, hc, hp]
  rw [hhex, hdec]
  simp [hne]

/-- Witness for C4: the 1-byte ciphertext `0x10` (hex payload `"10"`) has
length not a multiple of the block size, so `decrypt` fails and the `data`
frame carrying it is dropped with no relay. -/
theorem decryptFailure_witness :
    VPNServer.decrypt idCipher iv16 [16] = none ∧
    VPNServer.handleClientData idCipher iv16 0 st1 1
        "\x7b\"type\":\"data\",\"encrypted\":true,\"payload\":\"10\"\x7d" =
      (bumpReceived st1 1
        ("\x7b\"type\":\"data\",\"encrypted\":true,\"payload\":\"10\"\x7d").length, []) := by
  have h := decryptFailure_spec idCipher iv16 0 st1 1 client1
    "\x7b\"type\":\"data\",\"encrypted\":true,\"payload\":\"10\"\x7d" "10" [16]
    (Or.inl (by decide))
  exact ⟨h.1, h.2 rfl (by decide) (by decide) (by decide)⟩

/-!
C2: the `pong` timestamp.  The repository's own protocol documentation
(README, "Ping/Pong") shows the pong carrying the same timestamp as the
ping, and the client (src/index.js lines 125-127) computes round-trip
latency as `Date.now() - message.timestamp`, which presumes the echo; the
server code instead replies with a fresh `Date.now()` (src/index.js lines
370-374).
-/

/-- C2 (code bug): evaluating `handleClientData` at the failing input — a
ping with timestamp 0 arriving when the server clock reads 1 — the server
emits `pong` with timestamp 1 (its own clock), not the echoed 0 that the
claim and the repository's documentation require. -/
theorem pong_timestamp_not_echoed :
    (VPNServer.handleClientData idCipher iv16 1 st1 1
        "\x7b\"type\":\"ping\",\"timestamp\":0\x7d\n").2 = [(1, OutMsg.pong 1)] ∧
    [(1, OutMsg.pong 1)] ≠ [(1, OutMsg.pong 0)] := by
  refine ⟨?_, by decide⟩
  decide

/-!
C5: exclude-sender broadcast.
-/

theorem lookupClient_mem_keys (l : List (Nat × ClientInfo)) (k : Nat)
    (h : k ∈ l.map fun kv => kv.1) :
    ∃ c, lookupClient l k = some c ∧ (k, c) ∈ l := by
  induction l with
  | nil => simp at h
  | cons kv rest ih =>
    by_cases hk : kv.1 = k
    · refine ⟨kv.2, by simp [lookupClient, hk], ?_⟩
      have : kv = (k, kv.2) := by
        rw [← hk]
      rw [← this]
      simp
    · have h' : k ∈ rest.map fun kv => kv.1 := by
        rcases List.mem_map.mp h with ⟨x, hx, hxx⟩
        rcases List.mem_cons.mp hx with hx1 | hx2
        · subst hx1
          exact absurd hxx hk
        · exact List.mem_map.mpr ⟨x, hx2, hxx⟩
      rcases ih h' with ⟨c, hc1, hc2⟩
      exact ⟨c, by simp [lookupClient, hk, hc1], List.mem_cons.mpr (Or.inr hc2)⟩

theorem lookupFlag_connected (s : ServerState) (k : Nat)
    (hconn : ∀ kv ∈ s.clients, kv.2.connected = true)
    (hk : k ∈ s.clients.map fun kv => kv.1) :
    lookupFlag (profileS s) k = some true := by
  rcases lookupClient_mem_keys s.clients k hk with ⟨c, hc1, hc2⟩
  have hcc : c.connected = true := hconn (k, c) hc2
  have h := lookupFlag_profileS s.clients k
  rw [show profileS s = s.clients.map fun kv => (kv.1, kv.2.connected) from rfl, h, hc1]
  simp [hcc]

theorem broadcastOuts_all (pf : List (Nat × Bool)) (sid : Nat) (m : OutMsg) :
    ∀ ks : List Nat, (∀ k ∈ ks, lookupFlag pf k = some true) →
      broadcastOuts pf sid m ks = (ks.filter fun k => k != sid).map fun k => (k, m) := by
  intro ks
  induction ks with
  | nil => intro _; rfl
  | cons k ks ih =>
    intro h
    simp only [broadcastOuts, List.filterMap_cons, List.filter_cons]
    by_cases hk : k ≠ sid
    · rw [if_pos hk, h k (by simp), if_pos (by simp [hk])]
      dsimp only
      rw [List.map_cons]
      congr 1
      exact ih fun x hx => h x (by simp [hx])
    · rw [if_neg hk, if_neg (by simpa using hk)]
      dsimp only
      exact ih fun x hx => h x (by simp [hx])

theorem count_pair_map (ks : List Nat) (k : Nat) (m : OutMsg) :
    ((ks.map fun j => (j, m)).count (k, m)) = ks.count k := by
  induction ks with
  | nil => rfl
  | cons j ks ih =>
    simp only [List.map_cons, List.count_cons, ih, Prod.mk.injEq]
    by_cases hj : j = k
    · simp [hj]
    · simp [hj]

/-- C5: exclude-sender broadcast.  On a `data` frame from a registered
sender that hex-decodes and decrypts successfully, the emitted messages are
exactly one `relay` — carrying the sender's identity and the hex plaintext
— per registered client other than the sender (in registry order): every
other client receives it exactly once and the sender receives nothing. -/
theorem dataRelay_spec (bc : BlockCipher) (iv : List Nat) (now : Nat)
    (s : ServerState) (cid : Nat) (c : ClientInfo) (chunk p : String) (pt : List Nat)
    (hconn : ∀ kv ∈ s.clients, kv.2.connected = true)
    (hnd : (s.clients.map fun kv => kv.1).Nodup)
    (hc : lookupClient s.clients cid = some c)
    (hp : parseMsg chunk = some (.dataMsg true (some p)))
    (hne : p ≠ "")
    (hdec : VPNServer.decrypt bc iv (hexDecode p) = some pt) :
    (VPNServer.handleClientData bc iv now s cid chunk).2 =
      ((s.clients.map fun kv => kv.1).filter fun k => k != cid).map
        (fun k => (k, OutMsg.relay cid (hexEncode pt))) ∧
    (∀ k ∈ s.clients.map fun kv => kv.1, k ≠ cid →
      ((VPNServer.handleClientData bc iv now s cid chunk).2).count
        (k, OutMsg.relay cid (hexEncode pt)) = 1) ∧
    (∀ o ∈ (VPNServer.handleClientData bc iv now s cid chunk).2, o.1 ≠ cid) := by
  have hstep : VPNServer.handleClientData bc iv now s cid chunk =
      VPNServer.broadcastToOthers (bumpReceived s cid chunk.length) cid
        (OutMsg.relay cid (hexEncode pt)) := by
    simp only [VPNServer.handleClientData, hc, hp, hdec]
    simp [hne]
  have houts : (VPNServer.handleClientData bc iv now s cid chunk).2 =
      ((s.clients.map fun kv => kv.1).filter fun k => k != cid).map
        (fun k => (k, OutMsg.relay cid (hexEncode pt))) := by
    rw [hstep, broadcastToOthers_snd, profileS_bumpReceived, keys_bumpReceived]
    exact broadcastOuts_all (profileS s) cid _ _
      (fun k hk => lookupFlag_connected s k hconn hk)
  refine ⟨houts, ?_, ?_⟩
  · intro k hk hkcid
    rw [houts, count_pair_map]
    have h1 : ((s.clients.map fun kv => kv.1).filter fun k => k != cid).Nodup :=
      hnd.filter _
    have h2 : k ∈ (s.clients.map fun kv => kv.1).filter fun k => k != cid :=
      List.mem_filter.mpr ⟨hk, by simp [hkcid]⟩
    exact List.count_eq_one_of_mem h1 h2
  · intro o ho
    rw [houts] at ho
    rcases List.mem_map.mp ho with ⟨k, hk, rfl⟩
    have := (List.mem_filter.mp hk).2
    simpa using this

/-- Witness for C5 on the three-client server: client 1 sends a `data`
frame whose 16-byte ciphertext (hex `"10...10"`) decrypts (under the
identity cipher and zero IV) to the empty plaintext; clients 2 and 3 each
get the relay `(k, relay 1 (hex ""))` exactly once and client 1 none. -/
theorem dataRelay_witness :
    (VPNServer.handleClientData idCipher iv16 0 st3 1
        "\x7b\"type\":\"data\",\"encrypted\":true,\"payload\":\"10101010101010101010101010101010\"\x7d").2 =
      ((st3.clients.map fun kv => kv.1).filter fun k => k != 1).map
        (fun k => (k, OutMsg.relay 1 (hexEncode []))) := by
  have hch : chunks16 (List.replicate 16 16) = [List.replicate 16 16] := by
    rw [chunks16_cons _ (by decide)]
    have h1 : (List.replicate 16 (16 : Nat)).take 16 = List.replicate 16 16 := by decide
    have h2 : (List.replicate 16 (16 : Nat)).drop 16 = [] := by decide
    rw [h1, h2, chunks16_nil]
  have hdec : VPNServer.decrypt idCipher iv16 (List.replicate 16 16) = some [] := by
    unfold VPNServer.decrypt
    rw [if_pos (by decide), hch]
    decide
  have hdec2 : VPNServer.decrypt idCipher iv16
      (hexDecode "10101010101010101010101010101010") = some [] := by
    rw [show hexDecode "10101010101010101010101010101010" = List.replicate 16 16 by decide]
    exact hdec
  exact (dataRelay_spec idCipher iv16 0 st3 1 client1 _
    "10101010101010101010101010101010" []
    (by decide) (by decide) rfl (by decide) (by decide) hdec2).1

/-!
C1: framing.  The server has no per-connection receive buffer: each
`'data'` chunk is parsed on its own by `handleClientData` (src/index.js
line 368, `JSON.parse(data.toString())`), so a message split across chunk
boundaries is never decoded (every fragment takes the raw-data path) and
nothing is carried over between chunks.  (The newline-buffered Frame Codec
the claim describes exists only in the client half of the source, lines
72-92.)
-/

theorem lookupClient_bumpReceived (s : ServerState) (cid n : Nat) :
    lookupClient (bumpReceived s cid n).clients cid =
      (lookupClient s.clients cid).map
        fun c => { c with bytesReceived := c.bytesReceived + n } :=
  lookupClient_updateClient_self s.clients cid
    fun c => { c with bytesReceived := c.bytesReceived + n }

theorem lookupFlag_profileS' (s : ServerState) (k : Nat) :
    lookupFlag (profileS s) k = (lookupClient s.clients k).map fun c => c.connected :=
  lookupFlag_profileS s.clients k

theorem handleClientData_snd_bump (bc : BlockCipher) (iv : List Nat) (now : Nat)
    (s : ServerState) (cid n : Nat) (ch : String) :
    (VPNServer.handleClientData bc iv now (bumpReceived s cid n) cid ch).2 =
      (VPNServer.handleClientData bc iv now s cid ch).2 := by
  cases hl : lookupClient s.clients cid with
  | none =>
    have hl2 : lookupClient (bumpReceived s cid n).clients cid = none := by
      rw [lookupClient_bumpReceived, hl]; rfl
    simp only [VPNServer.handleClientData, hl, hl2]
  | some c =>
    have hl2 : lookupClient (bumpReceived s cid n).clients cid =
        some { c with bytesReceived := c.bytesReceived + n } := by
      rw [lookupClient_bumpReceived, hl]; rfl
    simp only [VPNServer.handleClientData, hl, hl2]
    cases hp : parseMsg ch with
    | none => rfl
    | some msg =>
      cases msg with
      | ping t =>
        dsimp only
        simp only [sendToClient_snd, profileS_bumpReceived]
      | tunnel r =>
        dsimp only
        simp only [sendToClient_snd, profileS_bumpReceived]
      | dataMsg enc payload =>
        cases payload with
        | none => rfl
        | some p =>
          dsimp only
          by_cases hcond : enc = true ∧ p ≠ ""
          · rw [if_pos hcond, if_pos hcond]
            cases hd : VPNServer.decrypt bc iv (hexDecode p) with
            | none => rfl
            | some pt =>
              dsimp only
              simp only [broadcastToOthers_snd, profileS_bumpReceived, keys_bumpReceived]
          · rw [if_neg hcond, if_neg hcond]

/-- C1 amended: the server's inbound handler has no frame buffer and
parses each chunk independently.  A chunk that does not parse as a complete
protocol message is dropped: only the sender's `bytesReceived` counter
grows, and the remaining chunks are processed exactly as if the dropped
chunk had never arrived (the counter bump does not change what any later
chunk produces).  A message whose whole serialization (with its trailing
newline) arrives in a single chunk is decoded and handled exactly once
(shown for `ping`: exactly one `pong` is emitted).  In particular a message
split across two reads is never decoded, and no buffering reconstructs
it. -/
theorem frameHandling_spec (bc : BlockCipher) (iv : List Nat) (now : Nat)
    (s : ServerState) (cid : Nat) (c : ClientInfo) (n : Nat) (ch : String)
    (rest : List String)
    (hc : lookupClient s.clients cid = some c) :
    (parseMsg ch = none →
      processChunks bc iv now s cid (ch :: rest) =
        processChunks bc iv now (bumpReceived s cid ch.length) cid rest) ∧
    ((VPNServer.handleClientData bc iv now (bumpReceived s cid n) cid ch).2 =
      (VPNServer.handleClientData bc iv now s cid ch).2) ∧
    (∀ T, parseMsg ch = some (.ping T) → c.connected = true →
      (VPNServer.handleClientData bc iv now s cid ch).2 = [(cid, OutMsg.pong now)]) := by
  refine ⟨?_, handleClientData_snd_bump bc iv now s cid n ch, ?_⟩
  · intro hparse
    have hstep : VPNServer.handleClientData bc iv now s cid ch =
        (bumpReceived s cid ch.length, []) := by
      simp only [VPNServer.handleClientData, hc, hparse]
    simp only [processChunks, hstep, List.nil_append]
  · intro T hp hcon
    simp only [VPNServer.handleClientData, hc, hp]
    rw [sendToClient_snd, profileS_bumpReceived, lookupFlag_profileS', hc]
    simp [hcon]

/-- C1 counterexample: the serialization of `Ping{timestamp: 0}` plus its
newline delimiter, split into the two chunks shown (whose concatenation is
exactly the full frame), is delivered to the server's data handler from a
connected client; the server decodes nothing and emits nothing (each
fragment fails `JSON.parse` and is dropped), whereas the same frame in a
single chunk yields the ping's pong — so the claim that the message is
decoded exactly once under arbitrary chunk boundaries is false. -/
theorem frame_split_counterexample :
    "\x7b\"type\":\"ping\",\"tim" ++ "estamp\":0\x7d\n" =
      "\x7b\"type\":\"ping\",\"timestamp\":0\x7d\n" ∧
    (processChunks idCipher iv16 5 st1 1
        ["\x7b\"type\":\"ping\",\"tim", "estamp\":0\x7d\n"]).2 = [] ∧
    (processChunks idCipher iv16 5 st1 1
        ["\x7b\"type\":\"ping\",\"timestamp\":0\x7d\n"]).2 = [(1, OutMsg.pong 5)] := by
  refine ⟨by decide, by decide, by decide⟩

/-- Witness for the amended C1: an unparseable chunk `"x"` before a ping
frame only bumps the byte counter (the ping is then handled from the bumped
state), and a whole ping frame in one chunk yields exactly one pong. -/
theorem frameHandling_witness :
    processChunks idCipher iv16 7 st1 1
        ["x", "\x7b\"type\":\"ping\",\"timestamp\":3\x7d\n"] =
      processChunks idCipher iv16 7 (bumpReceived st1 1 ("x").length) 1
        ["\x7b\"type\":\"ping\",\"timestamp\":3\x7d\n"] ∧
    (VPNServer.handleClientData idCipher iv16 7 st1 1
        "\x7b\"type\":\"ping\",\"timestamp\":3\x7d\n").2 = [(1, OutMsg.pong 7)] :=
  ⟨(frameHandling_spec idCipher iv16 7 st1 1 client1 0 "x"
      ["\x7b\"type\":\"ping\",\"timestamp\":3\x7d\n"] rfl).1 (by decide),
   (frameHandling_spec idCipher iv16 7 st1 1 client1 0
      "\x7b\"type\":\"ping\",\"timestamp\":3\x7d\n" [] rfl).2.2 3 (by decide) rfl⟩

/-- Witness for C6: over the trace register, register, deregister 1,
register, the assigned identities are `[1, 2, 3]` (id 1 is not reused after
its removal) and each of them is positive. -/
theorem identity_assignment_witness :
    (runOps [] [] initialServerState
        [RegOp.register, RegOp.register, RegOp.deregister 1, RegOp.register]).2 =
      List.range' 1 3 ∧
    0 < 2 := by
  have h := identity_assignment_spec [] []
    [RegOp.register, RegOp.register, RegOp.deregister 1, RegOp.register]
  exact ⟨h.1, h.2.2 2 (by rw [h.1]; decide)⟩
